import Mathlib

/-!
Verification of the `amtt` (Android Media Transfer Tool) core against its
natural-language specification.  The definitions below are a shallow
embedding of the Python sources under `src/amtt/`:

* `amtt/core/filesystem.py` — `FileType`, `FileInfo`
* `amtt/core/batch.py`      — `BatchConfig`
* `amtt/core/transfer.py`   — `TransferManager` (`_create_batches`,
  `_get_organized_path`, `_handle_duplicate`, `transfer_files`)
* `amtt/core/config.py`     — `ConfigManager.is_safe_path`
* `amtt/core/device.py`     — serial dedup in `get_connected_devices`

Filesystem and subprocess effects are modelled by explicit oracle
functions (`Env` below): a `none`/`false` result stands for the
corresponding Python call raising an exception.
-/

namespace AMTT

/-- File categories, from `amtt.core.filesystem.FileType`. -/
inductive FileType where
  | FOLDER
  | IMAGE
  | VIDEO
  | AUDIO
  | DOCUMENT
  | OTHER
deriving DecidableEq

/-- A calendar date, standing in for the `datetime` values the Python code
stores in `FileInfo.modified_date` (only year/month/day are ever read). -/
structure DateM where
  year : Nat
  month : Nat
  day : Nat
deriving DecidableEq

/-- `amtt.core.filesystem.FileInfo` (the `id` field is never read by the
code under verification and is omitted). -/
structure FileInfo where
  name : String
  path : String
  type : FileType
  size : Option Nat := none
  modified_date : Option DateM := none
deriving DecidableEq

/-! `amtt.core.batch.BatchConfig`. -/

namespace BatchConfig

/-- Maximum size of a single batch (2GB). -/
def MAX_BATCH_SIZE : Nat := 2 * 1024 * 1024 * 1024

/-- Maximum number of files in a single batch. -/
def MAX_FILES_PER_BATCH : Nat := 50

end BatchConfig

/-- The size the batching code attributes to a path: `file_info.size or 0`,
and `0` for a path whose metadata lookup failed (such a path never enters a
batch anyway). -/
def fileSizeOf (info : String → Option FileInfo) (f : String) : Nat :=
  match info f with
  | some fi => fi.size.getD 0
  | none => 0

/-- Sum of the sizes the batching code attributes to the members of a batch. -/
def batchSizeSum (info : String → Option FileInfo) (b : List String) : Nat :=
  (b.map (fileSizeOf info)).sum

/-- The loop body of `TransferManager._create_batches`, with the running
batch and its accumulated size made explicit.  `info` is the oracle for
`self._filesystem.get_file_info`; `none` models the call raising. -/
def createBatchesAux (info : String → Option FileInfo) :
    List String → List String → Nat → List (List String)
  | [], cur, _ => if cur.isEmpty then [] else [cur]
  | f :: fs, cur, curSize =>
    match info f with
    | none => createBatchesAux info fs cur curSize
    | some fi =>
      let fileSize := fi.size.getD 0
      if BatchConfig.MAX_BATCH_SIZE < fileSize then
        (if cur.isEmpty then [] else [cur]) ++ [f] :: createBatchesAux info fs [] 0
      else if BatchConfig.MAX_BATCH_SIZE < curSize + fileSize ∨
          BatchConfig.MAX_FILES_PER_BATCH ≤ cur.length then
        cur :: createBatchesAux info fs [f] fileSize
      else
        createBatchesAux info fs (cur ++ [f]) (curSize + fileSize)

/-- `TransferManager._create_batches(files)` (the generator, collected into
a list as `transfer_files` does with `list(...)`). -/
def createBatches (info : String → Option FileInfo) (files : List String) :
    List (List String) :=
  createBatchesAux info files [] 0

theorem batchSizeSum_nil (info : String → Option FileInfo) :
    batchSizeSum info [] = 0 := rfl

theorem batchSizeSum_append_singleton (info : String → Option FileInfo)
    (b : List String) (f : String) :
    batchSizeSum info (b ++ [f]) = batchSizeSum info b + fileSizeOf info f := by
  simp [batchSizeSum]

theorem batchSizeSum_singleton (info : String → Option FileInfo) (f : String) :
    batchSizeSum info [f] = fileSizeOf info f := by
  simp [batchSizeSum]

theorem createBatchesAux_bounds (info : String → Option FileInfo) :
    ∀ (fs cur : List String) (curSize : Nat),
      batchSizeSum info cur = curSize →
      curSize ≤ BatchConfig.MAX_BATCH_SIZE →
      cur.length ≤ BatchConfig.MAX_FILES_PER_BATCH →
      ∀ b ∈ createBatchesAux info fs cur curSize,
        (batchSizeSum info b ≤ BatchConfig.MAX_BATCH_SIZE ∧
          b.length ≤ BatchConfig.MAX_FILES_PER_BATCH) ∨ b.length = 1 := by
  intro fs
  induction fs with
  | nil =>
    intro cur curSize hsum hsz hlen b hb
    by_cases hcur : cur.isEmpty
    · simp [createBatchesAux, hcur] at hb
    · simp [createBatchesAux, hcur] at hb
      subst hb
      exact Or.inl ⟨hsum ▸ hsz, hlen⟩
  | cons f fs ih =>
    intro cur curSize hsum hsz hlen b hb
    rw [createBatchesAux] at hb
    cases hinfo : info f with
    | none =>
      rw [hinfo] at hb
      exact ih cur curSize hsum hsz hlen b hb
    | some fi =>
      rw [hinfo] at hb
      simp only at hb
      by_cases hbig : BatchConfig.MAX_BATCH_SIZE < fi.size.getD 0
      · rw [if_pos hbig] at hb
        rw [List.mem_append] at hb
        rcases hb with hb | hb
        · by_cases hcur : cur.isEmpty
          · simp [hcur] at hb
          · simp [hcur] at hb
            subst hb
            exact Or.inl ⟨hsum ▸ hsz, hlen⟩
        · rw [List.mem_cons] at hb
          rcases hb with hb | hb
          · subst hb; exact Or.inr rfl
          · exact ih [] 0 rfl (Nat.zero_le _) (Nat.zero_le _) b hb
      · rw [if_neg hbig] at hb
        by_cases hflush : BatchConfig.MAX_BATCH_SIZE < curSize + fi.size.getD 0 ∨
            BatchConfig.MAX_FILES_PER_BATCH ≤ cur.length
        · rw [if_pos hflush] at hb
          rw [List.mem_cons] at hb
          rcases hb with hb | hb
          · subst hb; exact Or.inl ⟨hsum ▸ hsz, hlen⟩
          · refine ih [f] (fi.size.getD 0) ?_ (Nat.le_of_not_lt hbig) ?_ b hb
            · simp [batchSizeSum_singleton, fileSizeOf, hinfo]
            · simp [BatchConfig.MAX_FILES_PER_BATCH]
        · rw [if_neg hflush] at hb
          push_neg at hflush
          refine ih (cur ++ [f]) (curSize + fi.size.getD 0) ?_ hflush.1 ?_ b hb
          · rw [batchSizeSum_append_singleton, hsum, fileSizeOf, hinfo]
          · rw [List.length_append, List.length_singleton]
            exact hflush.2

theorem createBatchesAux_join (info : String → Option FileInfo) :
    ∀ (fs cur : List String) (curSize : Nat),
      (createBatchesAux info fs cur curSize).flatten =
        cur ++ fs.filter (fun f => (info f).isSome) := by
  intro fs
  induction fs with
  | nil =>
    intro cur curSize
    by_cases hcur : cur.isEmpty
    · simp [createBatchesAux, hcur, List.isEmpty_iff.mp hcur]
    · simp [createBatchesAux, hcur]
  | cons f fs ih =>
    intro cur curSize
    rw [createBatchesAux]
    cases hinfo : info f with
    | none =>
      rw [ih cur curSize, List.filter_cons_of_neg (by simp [hinfo])]
    | some fi =>
      simp only
      by_cases hbig : BatchConfig.MAX_BATCH_SIZE < fi.size.getD 0
      · rw [if_pos hbig]
        by_cases hcur : cur.isEmpty
        · simp [hcur, List.isEmpty_iff.mp hcur, ih, List.filter_cons, hinfo]
        · simp [hcur, ih, List.filter_cons, hinfo]
      · rw [if_neg hbig]
        by_cases hflush : BatchConfig.MAX_BATCH_SIZE < curSize + fi.size.getD 0 ∨
            BatchConfig.MAX_FILES_PER_BATCH ≤ cur.length
        · rw [if_pos hflush]
          simp [ih, List.filter_cons, hinfo]
        · rw [if_neg hflush]
          simp [ih, List.filter_cons, hinfo]

/-- C1: every batch produced by `TransferManager._create_batches` has member
sizes summing to at most `MAX_BATCH_SIZE` or is a singleton, has at most
`MAX_FILES_PER_BATCH` members or is a singleton, and the concatenation of
all batches in emission order is exactly the input list minus the paths
whose `get_file_info` lookup failed. -/
theorem create_batches_spec (info : String → Option FileInfo) (files : List String) :
    (∀ b ∈ createBatches info files,
      (batchSizeSum info b ≤ BatchConfig.MAX_BATCH_SIZE ∨ b.length = 1) ∧
      (b.length ≤ BatchConfig.MAX_FILES_PER_BATCH ∨ b.length = 1)) ∧
    (createBatches info files).flatten =
      files.filter (fun f => (info f).isSome) := by
  constructor
  · intro b hb
    have h := createBatchesAux_bounds info files [] 0 rfl (Nat.zero_le _)
      (Nat.zero_le _) b hb
    rcases h with ⟨h1, h2⟩ | h1
    · exact ⟨Or.inl h1, Or.inl h2⟩
    · exact ⟨Or.inr h1, Or.inr h1⟩
  · exact createBatchesAux_join info files [] 0

/-! ### The transfer engine (`TransferManager.transfer_files`)

Effects are modelled by the oracle record `Env`: `getFileInfo`/`listFiles`
return `none` where the Python call would raise, `copyOk` tells whether the
`shutil.copy2` (together with the surrounding destination-path setup) for a
given source path succeeds, `deleteOk` whether `os.remove` succeeds, and
`logOk` whether `TransferLogger.add_entry` (the journal write) succeeds.
The oracles are deterministic, matching a quiescent filesystem during one
run. -/

/-- Oracle record for the filesystem, device and journal effects used by
`transfer_files`. -/
structure Env where
  getFileInfo : String → Option FileInfo
  listFiles : String → Option (List FileInfo)
  copyOk : String → Bool
  deleteOk : String → Bool
  logOk : Bool

/-- `amtt.core.transfer.TransferResult`, restricted to the fields the code
ever writes with observable values.  `deleted_sources` is instrumentation
added by the embedding: it records the source paths for which the
`os.remove` in `transfer_files` executed and succeeded. -/
structure TransferResult where
  successful_files : List String := []
  failed_files : List String := []
  total_size : Nat := 0
  failed_paths : List String := []
  deleted_sources : List String := []
deriving DecidableEq

/-- `amtt.core.transfer_log.TransferLogEntry`, minus the wall-clock fields
(`timestamp`, `duration`), which have no functional content. -/
structure TransferLogEntry where
  source_dir : String
  destination_dir : String
  successful_files : List String
  failed_files : List String
  failed_paths : List String
  total_size : Nat
  delete_source : Bool
deriving DecidableEq

/-- One iteration of the source-expansion loop at the top of
`transfer_files`: accumulates `(available_files, failed_paths)`.  A failing
`get_file_info` records the root in `failed_paths`; a failing `list_files`
on a folder is caught and merely skipped; a plain file is included
directly; folder listings contribute their non-folder entries' paths. -/
def expandStep (env : Env) (acc : List String × List String) (source_path : String) :
    List String × List String :=
  match env.getFileInfo source_path with
  | none => (acc.1, acc.2 ++ [source_path])
  | some fi =>
    if fi.type = FileType.FOLDER then
      match env.listFiles source_path with
      | none => acc
      | some entries =>
        (acc.1 ++ (entries.filter (fun e => e.type ≠ FileType.FOLDER)).map (fun e => e.path),
          acc.2)
    else (acc.1 ++ [source_path], acc.2)

/-- The full source-expansion pass of `transfer_files`, yielding
`(available_files, failed_paths)`. -/
def expandSources (env : Env) (source_paths : List String) : List String × List String :=
  source_paths.foldl (expandStep env) ([], [])

/-- The per-file body of the batch-processing loop in `transfer_files`.
A failing `get_file_info` or a failing copy appends the path to
`failed_files`; a successful copy appends to `successful_files` and adds
the file size, after attempting source deletion when requested (a deletion
failure is swallowed). -/
def processFile (env : Env) (delete_source : Bool) (r : TransferResult)
    (source_path : String) : TransferResult :=
  match env.getFileInfo source_path with
  | none => { r with failed_files := r.failed_files ++ [source_path] }
  | some fi =>
    if env.copyOk source_path then
      let r' :=
        if delete_source && env.deleteOk source_path then
          { r with deleted_sources := r.deleted_sources ++ [source_path] }
        else r
      { r' with successful_files := r'.successful_files ++ [source_path],
                total_size := r'.total_size + fi.size.getD 0 }
    else
      { r with failed_files := r.failed_files ++ [source_path] }

/-- The `TransferResult` value `transfer_files` has accumulated by the time
it reaches the `add_entry` call: empty-expansion runs return the initial
result (with `failed_paths` recorded), otherwise every file of every batch
is processed in order by `processFile`. -/
def runResult (env : Env) (source_paths : List String) (delete_source : Bool) :
    TransferResult :=
  let ex := expandSources env source_paths
  if ex.1.isEmpty then { failed_paths := ex.2 }
  else
    (createBatches env.getFileInfo ex.1).foldl
      (fun acc batch => batch.foldl (processFile env delete_source) acc)
      { failed_paths := ex.2 }

/-- The `TransferLogEntry` that `transfer_files` hands to
`TransferLogger.add_entry`; both the empty-expansion branch and the normal
branch build it from the current result's fields (the empty branch writes
the literal empty lists and `0`, which coincide with the initial result's
fields). -/
def entryOf (r : TransferResult) (source_paths : List String)
    (destination_dir : String) (delete_source : Bool) : TransferLogEntry :=
  { source_dir := source_paths.headD "", destination_dir := destination_dir,
    successful_files := r.successful_files, failed_files := r.failed_files,
    failed_paths := r.failed_paths, total_size := r.total_size,
    delete_source := delete_source }

/-- `TransferManager.transfer_files`.  Returns the `TransferResult`
together with the `TransferLogEntry` handed to `TransferLogger.add_entry`;
`Except.error ()` models the run terminating with an uncaught exception,
which in this code can only come from the unguarded `add_entry` call
(`env.logOk = false`). -/
def transferFiles (env : Env) (source_paths : List String) (destination_dir : String)
    (delete_source : Bool := true) :
    Except Unit (TransferResult × TransferLogEntry) :=
  let r := runResult env source_paths delete_source
  if env.logOk then .ok (r, entryOf r source_paths destination_dir delete_source)
  else .error ()

theorem processFile_count (env : Env) (del : Bool) (r : TransferResult) (f : String) :
    (processFile env del r f).successful_files.length +
      (processFile env del r f).failed_files.length =
    r.successful_files.length + r.failed_files.length + 1 := by
  cases h : env.getFileInfo f with
  | none => simp [processFile, h]; omega
  | some fi =>
    by_cases hc : env.copyOk f
    · by_cases hd : del && env.deleteOk f <;> simp [processFile, h, hc, hd] <;> omega
    · simp [processFile, h, hc]; omega

theorem foldl_processFile_count (env : Env) (del : Bool) :
    ∀ (b : List String) (r : TransferResult),
      (b.foldl (processFile env del) r).successful_files.length +
        (b.foldl (processFile env del) r).failed_files.length =
      r.successful_files.length + r.failed_files.length + b.length := by
  intro b
  induction b with
  | nil => intro r; simp
  | cons f fs ih =>
    intro r
    rw [List.foldl_cons, ih, processFile_count, List.length_cons]
    omega

theorem foldl_batches_count (env : Env) (del : Bool) :
    ∀ (bs : List (List String)) (r : TransferResult),
      (bs.foldl (fun acc batch => batch.foldl (processFile env del) acc) r).successful_files.length +
        (bs.foldl (fun acc batch => batch.foldl (processFile env del) acc) r).failed_files.length =
      r.successful_files.length + r.failed_files.length + bs.flatten.length := by
  intro bs
  induction bs with
  | nil => intro r; simp
  | cons b bs ih =>
    intro r
    rw [List.foldl_cons, ih, foldl_processFile_count]
    simp
    omega

theorem processFile_deleted (env : Env) (r : TransferResult) (f : String)
    (hdel : env.deleteOk f = true)
    (h : r.deleted_sources = r.successful_files) :
    (processFile env true r f).deleted_sources =
      (processFile env true r f).successful_files := by
  cases hi : env.getFileInfo f with
  | none => simpa [processFile, hi] using h
  | some fi =>
    by_cases hc : env.copyOk f
    · simp [processFile, hi, hc, hdel, h]
    · simpa [processFile, hi, hc] using h

theorem foldl_processFile_deleted (env : Env) (hdel : ∀ f, env.deleteOk f = true) :
    ∀ (b : List String) (r : TransferResult),
      r.deleted_sources = r.successful_files →
      (b.foldl (processFile env true) r).deleted_sources =
        (b.foldl (processFile env true) r).successful_files := by
  intro b
  induction b with
  | nil => intro r h; simpa using h
  | cons f fs ih =>
    intro r h
    rw [List.foldl_cons]
    exact ih _ (processFile_deleted env r f (hdel f) h)

theorem foldl_batches_deleted (env : Env) (hdel : ∀ f, env.deleteOk f = true) :
    ∀ (bs : List (List String)) (r : TransferResult),
      r.deleted_sources = r.successful_files →
      (bs.foldl (fun acc batch => batch.foldl (processFile env true) acc) r).deleted_sources =
        (bs.foldl (fun acc batch => batch.foldl (processFile env true) acc) r).successful_files := by
  intro bs
  induction bs with
  | nil => intro r h; simpa using h
  | cons b bs ih =>
    intro r h
    rw [List.foldl_cons]
    exact ih _ (foldl_processFile_deleted env hdel b r h)

/-! ### A concrete five-file scenario

One folder root under the device's camera directory, holding five images
of 100 bytes each; the copy of `photo2.jpg` (and only that one) throws. -/

def camRoot : String := "/Internal shared storage/DCIM/Camera"

def photoName (i : Nat) : String := "photo" ++ Nat.repr i ++ ".jpg"

def photoPath (i : Nat) : String := camRoot ++ "/" ++ photoName i

def photoInfo (i : Nat) : FileInfo :=
  { name := photoName i, path := photoPath i, type := FileType.IMAGE,
    size := some 100, modified_date := none }

def camInfo : FileInfo :=
  { name := "Camera", path := camRoot, type := FileType.FOLDER }

def env5 : Env :=
  { getFileInfo := fun p =>
      if p = camRoot then some camInfo
      else if p = photoPath 1 then some (photoInfo 1)
      else if p = photoPath 2 then some (photoInfo 2)
      else if p = photoPath 3 then some (photoInfo 3)
      else if p = photoPath 4 then some (photoInfo 4)
      else if p = photoPath 5 then some (photoInfo 5)
      else none,
    listFiles := fun p =>
      if p = camRoot then
        some [photoInfo 1, photoInfo 2, photoInfo 3, photoInfo 4, photoInfo 5]
      else none,
    copyOk := fun p => p != photoPath 2,
    deleteOk := fun _ => true,
    logOk := true }

/-- The transfer result of the five-file scenario. -/
def r5 : TransferResult :=
  { successful_files := [photoPath 1, photoPath 3, photoPath 4, photoPath 5],
    failed_files := [photoPath 2], total_size := 400, failed_paths := [],
    deleted_sources := [photoPath 1, photoPath 3, photoPath 4, photoPath 5] }

/-- The journal entry of the five-file scenario. -/
def e5 : TransferLogEntry :=
  { source_dir := camRoot, destination_dir := "/out",
    successful_files := r5.successful_files, failed_files := r5.failed_files,
    failed_paths := [], total_size := 400, delete_source := true }

theorem transferFiles_env5 :
    transferFiles env5 [camRoot] "/out" true = .ok (r5, e5) := by rfl

/-- C2: a copy exception appends the file to `failed_files` and processing
continues — with a succeeding journal write, `transfer_files` always
returns a result in which every batched file landed in exactly one of
`successful_files`/`failed_files` and the persisted entry carries the same
aggregates; in the 5-file scenario where only the copy of file 2 throws,
`successful_files` has length 4 and `failed_files` length 1. -/
theorem transfer_copy_failure_isolated :
    (∀ (env : Env) (source_paths : List String) (destination_dir : String)
        (delete_source : Bool), env.logOk = true →
      ∃ r entry,
        transferFiles env source_paths destination_dir delete_source = .ok (r, entry) ∧
        entry.successful_files = r.successful_files ∧
        entry.failed_files = r.failed_files ∧
        r.successful_files.length + r.failed_files.length =
          ((expandSources env source_paths).1.filter
            (fun f => (env.getFileInfo f).isSome)).length) ∧
    (∃ r entry, transferFiles env5 [camRoot] "/out" true = .ok (r, entry) ∧
      r.successful_files.length = 4 ∧ r.failed_files.length = 1 ∧
      entry.successful_files = r.successful_files ∧
      entry.failed_files = r.failed_files) := by
  constructor
  · intro env source_paths destination_dir delete_source hlog
    refine ⟨runResult env source_paths delete_source,
      entryOf (runResult env source_paths delete_source) source_paths
        destination_dir delete_source,
      by simp [transferFiles, hlog], rfl, rfl, ?_⟩
    unfold runResult
    by_cases hav : (expandSources env source_paths).1.isEmpty
    · simp [hav, List.isEmpty_iff.mp hav]
    · rw [if_neg hav, foldl_batches_count]
      simp [createBatches, createBatchesAux_join]
  · exact ⟨r5, e5, transferFiles_env5, by decide, by decide, rfl, rfl⟩

/-- Witness for C2: the general clause instantiated in the five-file
scenario. -/
theorem transfer_copy_failure_isolated_witness :
    ∃ r entry, transferFiles env5 [camRoot] "/out" true = .ok (r, entry) ∧
      entry.successful_files = r.successful_files ∧
      entry.failed_files = r.failed_files ∧
      r.successful_files.length + r.failed_files.length =
        ((expandSources env5 [camRoot]).1.filter
          (fun f => (env5.getFileInfo f).isSome)).length :=
  transfer_copy_failure_isolated.1 env5 [camRoot] "/out" true rfl

/-- C8: when the expanded file set is empty, `transfer_files` still hands a
zero-aggregate entry to the journal and returns a result with empty
`successful_files` and `failed_files` (provided the journal write itself
succeeds). -/
theorem transfer_files_empty_run (env : Env) (source_paths : List String)
    (destination_dir : String) (delete_source : Bool)
    (hlog : env.logOk = true)
    (hempty : (expandSources env source_paths).1 = []) :
    transferFiles env source_paths destination_dir delete_source =
      .ok ({ failed_paths := (expandSources env source_paths).2 },
        { source_dir := source_paths.headD "", destination_dir := destination_dir,
          successful_files := [], failed_files := [],
          failed_paths := (expandSources env source_paths).2,
          total_size := 0, delete_source := delete_source }) := by
  simp [transferFiles, runResult, entryOf, hempty, hlog]

/-- An environment on which every filesystem lookup fails. -/
def envEmpty : Env :=
  { getFileInfo := fun _ => none, listFiles := fun _ => none,
    copyOk := fun _ => false, deleteOk := fun _ => false, logOk := true }

/-- Witness for C8: a run over one inaccessible root. -/
theorem transfer_files_empty_run_witness :
    transferFiles envEmpty ["/Internal shared storage/Pictures"] "/out" true =
      .ok ({ failed_paths := (expandSources envEmpty ["/Internal shared storage/Pictures"]).2 },
        { source_dir := (["/Internal shared storage/Pictures"] : List String).headD "",
          destination_dir := "/out",
          successful_files := [], failed_files := [],
          failed_paths := (expandSources envEmpty ["/Internal shared storage/Pictures"]).2,
          total_size := 0, delete_source := true }) :=
  transfer_files_empty_run envEmpty ["/Internal shared storage/Pictures"] "/out" true rfl rfl

/-- The five-file scenario with a failing journal write. -/
def env5NoLog : Env := { env5 with logOk := false }

/-- C9 counterexample: with identical inputs, a failing journal write makes
`transfer_files` terminate with an uncaught exception (no `TransferResult`
returned), while a succeeding one returns `.ok` — the reported outcome is
not independent of log persistence. -/
theorem log_failure_changes_outcome_counterexample :
    transferFiles env5NoLog [camRoot] "/out" true = .error () ∧
    transferFiles env5 [camRoot] "/out" true = .ok (r5, e5) :=
  ⟨rfl, transferFiles_env5⟩

/-- C9 amended: a failure of `TransferLogger.add_entry` is not caught in
`transfer_files`; it propagates as an exception, so no `TransferResult` is
returned when the journal write fails. -/
theorem log_failure_propagates (env : Env) (source_paths : List String)
    (destination_dir : String) (delete_source : Bool)
    (hlog : env.logOk = false) :
    transferFiles env source_paths destination_dir delete_source = .error () := by
  simp [transferFiles, hlog]

/-- Witness for the amended C9. -/
theorem log_failure_propagates_witness :
    transferFiles env5NoLog [camRoot] "/out" true = .error () :=
  log_failure_propagates env5NoLog [camRoot] "/out" true rfl

/-- C10: calling `transfer_files` without an explicit `delete_source`
argument uses the default `True`, so (when deletions succeed) every
successfully copied source file is deleted from the device. -/
theorem transfer_files_default_deletes (env : Env) (source_paths : List String)
    (destination_dir : String)
    (hlog : env.logOk = true)
    (hdel : ∀ f, env.deleteOk f = true) :
    ∃ r entry, transferFiles env source_paths destination_dir = .ok (r, entry) ∧
      entry.delete_source = true ∧
      r.deleted_sources = r.successful_files := by
  refine ⟨runResult env source_paths true,
    entryOf (runResult env source_paths true) source_paths destination_dir true,
    by simp [transferFiles, hlog], rfl, ?_⟩
  unfold runResult
  by_cases hav : (expandSources env source_paths).1.isEmpty
  · simp [hav]
  · rw [if_neg hav]
    exact foldl_batches_deleted env hdel _ _ rfl

/-- Witness for C10: the five-file scenario run with the default
`delete_source`. -/
theorem transfer_files_default_deletes_witness :
    ∃ r entry, transferFiles env5 [camRoot] "/out" = .ok (r, entry) ∧
      entry.delete_source = true ∧
      r.deleted_sources = r.successful_files :=
  transfer_files_default_deletes env5 [camRoot] "/out" rfl (fun _ => rfl)


/-! ### Path policy (`ConfigManager.is_safe_path`, `amtt/core/config.py`)

String operations are embedded over `List Char` with the Python
semantics of `in` (substring), `split`, `startswith`, `strip` and
single-character `replace`, so that concrete paths evaluate by `decide`. -/

/-- `listStartsWith s pat`: Python `s.startswith(pat)`. -/
def listStartsWith : List Char → List Char → Bool
  | _, [] => true
  | [], _ :: _ => false
  | c :: cs, p :: ps => c == p && listStartsWith cs ps

/-- `occursIn s pat`: Python `pat in s` (substring containment). -/
def occursIn : List Char → List Char → Bool
  | s, pat =>
    if listStartsWith s pat then true
    else match s with
      | [] => false
      | _ :: rest => occursIn rest pat

/-- `splitOnChar sep s`: Python `s.split(sep)` for a one-character
separator (empty pieces are kept). -/
def splitOnChar (sep : Char) : List Char → List (List Char)
  | [] => [[]]
  | c :: cs =>
    if c == sep then [] :: splitOnChar sep cs
    else match splitOnChar sep cs with
      | [] => [[c]]
      | p :: ps => (c :: p) :: ps

/-- Python `str.strip()` whitespace set. -/
def pyIsSpace (c : Char) : Bool :=
  c == ' ' || c == '\t' || c == '\n' || c == '\r' || c == '\x0b' || c == '\x0c'

/-- Python `s.strip()`. -/
def trimChars (cs : List Char) : List Char :=
  ((cs.dropWhile pyIsSpace).reverse.dropWhile pyIsSpace).reverse

/-- The normalization prefix of `is_safe_path`:
`path.replace("\\", "/").strip()`, then force a leading slash. -/
def normalizeChars (cs : List Char) : List Char :=
  let p := trimChars (cs.map fun c => if c == '\\' then '/' else c)
  if listStartsWith p ['/'] then p else '/' :: p

/-- `ConfigManager.SAFE_PATHS`. -/
def SAFE_PATHS : List (List Char) :=
  ["/Internal shared storage/DCIM/Camera".data,
   "/Internal shared storage/DCIM/Screenshots".data,
   "/Internal shared storage/Pictures".data,
   "/Internal shared storage/Movies".data,
   "/Internal shared storage/Music".data,
   "/Internal shared storage/Recordings".data,
   "/Internal shared storage/Download".data]

/-- `ConfigManager.RESTRICTED_PATHS`. -/
def RESTRICTED_PATHS : List (List Char) :=
  [".android".data, "Android/data".data, "Android/obb".data,
   "Android/media".data, ".system".data, "system".data, ".hidden".data,
   ".cache".data, "cache".data, ".trash".data, "lost.dir".data]

/-- `ConfigManager.is_safe_path`. -/
def is_safe_path (path : String) : Bool :=
  if RESTRICTED_PATHS.any
      (fun restricted => occursIn (normalizeChars path.data) restricted) then false
  else if (splitOnChar '/' (normalizeChars path.data)).any
      (fun part => !part.isEmpty && listStartsWith part ['.']) then false
  else SAFE_PATHS.any fun safe_path => listStartsWith (normalizeChars path.data) safe_path

/-- The spec's acceptance clause, written as the spec words it: the path
equals the allow-list directory or descends from it (lies strictly below
it, separated by `/`). -/
def equalsOrDescends (path dir : List Char) : Bool :=
  path == dir || listStartsWith path (dir ++ ['/'])

theorem is_safe_path_iff (path : String) :
    is_safe_path path = true ↔
      ((∀ r ∈ RESTRICTED_PATHS, occursIn (normalizeChars path.data) r = false) ∧
       (∀ part ∈ splitOnChar '/' (normalizeChars path.data), part.isEmpty = false →
          listStartsWith part ['.'] = false) ∧
       (∃ d ∈ SAFE_PATHS, listStartsWith (normalizeChars path.data) d = true)) := by
  unfold is_safe_path
  by_cases h1 : RESTRICTED_PATHS.any
      (fun r => occursIn (normalizeChars path.data) r) = true
  · rw [if_pos h1]
    simp only [List.any_eq_true] at h1
    obtain ⟨r, hr, hcr⟩ := h1
    simp only [Bool.false_eq_true, false_iff]
    rintro ⟨ha, -, -⟩
    rw [ha r hr] at hcr
    exact Bool.false_ne_true hcr
  · rw [if_neg h1]
    by_cases h2 : (splitOnChar '/' (normalizeChars path.data)).any
        (fun part => !part.isEmpty && listStartsWith part ['.']) = true
    · rw [if_pos h2]
      simp only [List.any_eq_true] at h2
      obtain ⟨part, hp, hcond⟩ := h2
      simp only [Bool.and_eq_true, Bool.not_eq_true'] at hcond
      simp only [Bool.false_eq_true, false_iff]
      rintro ⟨-, hb, -⟩
      rw [hb part hp hcond.1] at hcond
      exact Bool.false_ne_true hcond.2
    · rw [if_neg h2]
      simp only [List.any_eq_true] at h1 h2 ⊢
      constructor
      · intro h3
        refine ⟨?_, ?_, h3⟩
        · intro r hr
          by_contra hc
          exact h1 ⟨r, hr, by simpa using hc⟩
        · intro part hp hne
          by_contra hc
          refine h2 ⟨part, hp, ?_⟩
          simp [hne, (by simpa using hc : listStartsWith part ['.'] = true)]
      · rintro ⟨-, -, h3⟩
        exact h3

/-- C3 counterexample: `"/Internal shared storage/DCIM/Cameraz"` passes the
restricted-substring and hidden-segment screens and is accepted by
`is_safe_path`, yet it neither equals nor descends from any allow-list
directory — the code's `startswith` check is a raw string-prefix test, not
an equals-or-descends test. -/
theorem is_safe_path_not_descend_counterexample :
    is_safe_path "/Internal shared storage/DCIM/Cameraz" = true ∧
    (∀ r ∈ RESTRICTED_PATHS,
      occursIn (normalizeChars "/Internal shared storage/DCIM/Cameraz".data) r
        = false) ∧
    (∀ part ∈ splitOnChar '/'
        (normalizeChars "/Internal shared storage/DCIM/Cameraz".data),
      part.isEmpty = false → listStartsWith part ['.'] = false) ∧
    (∀ d ∈ SAFE_PATHS,
      equalsOrDescends (normalizeChars "/Internal shared storage/DCIM/Cameraz".data) d
        = false) :=
  ⟨by decide, by decide, by decide, by decide⟩

/-- C3 (amended): `is_safe_path` is a pure predicate that, after
normalizing separators and forcing a leading slash, rejects any path
containing a restricted substring or a non-empty path segment beginning
with a dot, and otherwise accepts exactly the paths having one of the
allow-list media-root directories as a string prefix (`startswith`; this
also accepts sibling names that merely extend an allow-list entry's last
component).  The four spec examples evaluate as stated. -/
theorem is_safe_path_spec :
    (∀ path : String,
      is_safe_path path = true ↔
        ((∀ r ∈ RESTRICTED_PATHS, occursIn (normalizeChars path.data) r = false) ∧
         (∀ part ∈ splitOnChar '/' (normalizeChars path.data), part.isEmpty = false →
            listStartsWith part ['.'] = false) ∧
         (∃ d ∈ SAFE_PATHS, listStartsWith (normalizeChars path.data) d = true))) ∧
    is_safe_path "/Internal shared storage/DCIM/Camera/x.jpg" = true ∧
    is_safe_path "/Internal shared storage/.hidden/x.jpg" = false ∧
    is_safe_path "/Android/data/x" = false ∧
    is_safe_path "/Internal shared storage/Notes" = false :=
  ⟨is_safe_path_iff, by decide, by decide, by decide, by decide⟩

/-- Witness for C3's characterization at a concrete path. -/
theorem is_safe_path_spec_witness :
    is_safe_path "/Internal shared storage/Movies/clip.mp4" = true ↔
      ((∀ r ∈ RESTRICTED_PATHS,
          occursIn (normalizeChars "/Internal shared storage/Movies/clip.mp4".data) r
            = false) ∧
       (∀ part ∈ splitOnChar '/'
            (normalizeChars "/Internal shared storage/Movies/clip.mp4".data),
          part.isEmpty = false → listStartsWith part ['.'] = false) ∧
       (∃ d ∈ SAFE_PATHS,
          listStartsWith (normalizeChars "/Internal shared storage/Movies/clip.mp4".data) d
            = true)) :=
  is_safe_path_spec.1 "/Internal shared storage/Movies/clip.mp4"

/-! ### Device-discovery dedup (`DeviceManager.get_connected_devices`,
`amtt/core/device.py`) -/

/-- The fields of the raw `device_info` dicts that the dedup loop reads or
keeps (detection strategies also record a mount point; it plays no role in
dedup and is carried under `name`/`transport` unchanged). -/
structure RawDevice where
  name : String
  serial : String
  transport : String
deriving DecidableEq

/-- Serial cleanup in the dedup loop: strip a leading `"mtp:host="`
(`serial[9:]`). -/
def normalizeSerial (serial : String) : String :=
  if listStartsWith serial.data "mtp:host=".data then String.mk (serial.data.drop 9)
  else serial

/-- The dedup loop of `get_connected_devices`, with the `seen_serials` set
made explicit: keep a device only if its normalized serial is unseen. -/
def dedupAux : List String → List RawDevice → List RawDevice
  | _, [] => []
  | seen, d :: ds =>
    if seen.contains (normalizeSerial d.serial) then dedupAux seen ds
    else d :: dedupAux (normalizeSerial d.serial :: seen) ds

/-- `unique_devices` as computed in `get_connected_devices`. -/
def dedupDevices (device_infos : List RawDevice) : List RawDevice :=
  dedupAux [] device_infos

theorem dedupAux_first_seen :
    ∀ (ds : List RawDevice) (seen : List String) (d : RawDevice),
      d ∈ dedupAux seen ds →
      ¬ normalizeSerial d.serial ∈ seen ∧
      ds.find? (fun e => normalizeSerial e.serial == normalizeSerial d.serial)
        = some d := by
  intro ds
  induction ds with
  | nil => intro seen d hd; simp [dedupAux] at hd
  | cons e ds ih =>
    intro seen d hd
    rw [dedupAux] at hd
    by_cases hseen : seen.contains (normalizeSerial e.serial)
    · rw [if_pos hseen] at hd
      obtain ⟨hnot, hfind⟩ := ih seen d hd
      refine ⟨hnot, ?_⟩
      rw [List.find?_cons_of_neg, hfind]
      intro heq
      rw [beq_iff_eq] at heq
      rw [heq] at hseen
      exact hnot (by simpa using hseen)
    · rw [if_neg hseen] at hd
      rcases List.mem_cons.mp hd with hd | hd
      · subst hd
        refine ⟨by simpa using hseen, ?_⟩
        rw [List.find?_cons_of_pos]
        simp
      · obtain ⟨hnot, hfind⟩ := ih _ d hd
        simp only [List.contains_cons, List.mem_cons] at hnot ⊢
        push_neg at hnot
        refine ⟨fun h => hnot.2 (by simpa using h), ?_⟩
        rw [List.find?_cons_of_neg, hfind]
        intro heq
        rw [beq_iff_eq] at heq
        exact hnot.1 heq.symm

theorem dedupAux_covers :
    ∀ (ds : List RawDevice) (seen : List String) (d : RawDevice),
      d ∈ ds →
      normalizeSerial d.serial ∈ seen ∨
        ∃ e ∈ dedupAux seen ds, normalizeSerial e.serial = normalizeSerial d.serial := by
  intro ds
  induction ds with
  | nil => intro seen d hd; simp at hd
  | cons e ds ih =>
    intro seen d hd
    rw [dedupAux]
    by_cases hseen : seen.contains (normalizeSerial e.serial)
    · rw [if_pos hseen]
      rcases List.mem_cons.mp hd with hd | hd
      · rw [hd]
        exact Or.inl (by simpa using hseen)
      · exact ih seen d hd
    · rw [if_neg hseen]
      rcases List.mem_cons.mp hd with hd | hd
      · refine Or.inr ⟨e, List.mem_cons_self e _, ?_⟩
        rw [hd]
      · rcases ih (normalizeSerial e.serial :: seen) d hd with h | ⟨x, hx, hxs⟩
        · rcases List.mem_cons.mp h with h | h
          · exact Or.inr ⟨e, List.mem_cons_self e _, h.symm⟩
          · exact Or.inl h
        · exact Or.inr ⟨x, List.mem_cons_of_mem _ hx, hxs⟩

/-- C5: device dedup normalizes serials by stripping the `"mtp:host="`
transport prefix and keeps exactly the first-seen raw entry per normalized
serial: every kept entry is the first of the probe-ordered input with its
normalized serial, every input device is represented by a kept entry with
the same normalized serial, and the two probes reporting serials
`"mtp:host=ABC"` and `"ABC"` collapse to the earlier-priority entry. -/
theorem dedup_first_seen_spec :
    (dedupDevices [⟨"Phone A", "mtp:host=ABC", "adb"⟩, ⟨"Phone B", "ABC", "mtp"⟩] =
      [⟨"Phone A", "mtp:host=ABC", "adb"⟩]) ∧
    (∀ (ds : List RawDevice) (d : RawDevice), d ∈ dedupDevices ds →
      ds.find? (fun e => normalizeSerial e.serial == normalizeSerial d.serial)
        = some d) ∧
    (∀ (ds : List RawDevice) (d : RawDevice), d ∈ ds →
      ∃ e ∈ dedupDevices ds, normalizeSerial e.serial = normalizeSerial d.serial) := by
  refine ⟨by decide, ?_, ?_⟩
  · intro ds d hd
    exact (dedupAux_first_seen ds [] d hd).2
  · intro ds d hd
    rcases dedupAux_covers ds [] d hd with h | h
    · simp at h
    · exact h

/-- Witness for C5: the coverage clause at the two-probe input. -/
theorem dedup_first_seen_spec_witness :
    ∃ e ∈ dedupDevices [⟨"Phone A", "mtp:host=ABC", "adb"⟩, ⟨"Phone B", "ABC", "mtp"⟩],
      normalizeSerial e.serial =
        normalizeSerial (RawDevice.mk "Phone B" "ABC" "mtp").serial :=
  dedup_first_seen_spec.2.2
    [⟨"Phone A", "mtp:host=ABC", "adb"⟩, ⟨"Phone B", "ABC", "mtp"⟩]
    ⟨"Phone B", "ABC", "mtp"⟩ (by decide)

/-! ### Destination organization (`TransferManager._get_organized_path`) -/

/-- `amtt.core.transfer.OrganizationStrategy`. -/
inductive OrganizationStrategy where
  | NONE
  | BY_DATE
  | BY_TYPE
  | BY_TYPE_AND_DATE
deriving DecidableEq

/-- The `type_dirs` table in `_get_organized_path`, with the dict-lookup
default `"Other"` for the missing `FOLDER` key. -/
def typeDirName : FileType → String
  | FileType.IMAGE => "Images"
  | FileType.VIDEO => "Videos"
  | FileType.AUDIO => "Audio"
  | FileType.DOCUMENT => "Documents"
  | FileType.OTHER => "Other"
  | FileType.FOLDER => "Other"

/-- Python `f"{n:02d}"` for naturals. -/
def pad2 (n : Nat) : String := if n < 10 then "0" ++ Nat.repr n else Nat.repr n

/-- `TransferManager._get_organized_path`; a path is its component list,
`base_path.joinpath(*parts)` is list append. -/
def getOrganizedPath (file_info : FileInfo) (base_path : List String)
    (strategy : OrganizationStrategy) : List String :=
  if strategy = OrganizationStrategy.NONE then base_path
  else
    let parts : List String :=
      (if strategy = OrganizationStrategy.BY_TYPE ∨
          strategy = OrganizationStrategy.BY_TYPE_AND_DATE then
        [typeDirName file_info.type]
      else []) ++
      (if strategy = OrganizationStrategy.BY_DATE ∨
          strategy = OrganizationStrategy.BY_TYPE_AND_DATE then
        match file_info.modified_date with
        | some date => [Nat.repr date.year, pad2 date.month, pad2 date.day]
        | none => []
      else [])
    base_path ++ parts

/-- A video file modified 2024-03-20, for the spec's concrete example. -/
def videoFi : FileInfo :=
  { name := "clip.mp4", path := "/Internal shared storage/Movies/clip.mp4",
    type := FileType.VIDEO, size := some 5,
    modified_date := some ⟨2024, 3, 20⟩ }

/-- C7: the organized destination directory is a pure function of category,
modified date, base and strategy: `NONE` keeps the base, `BY_TYPE` appends
the category folder, `BY_DATE` appends year/month/day when the date is
known and keeps the base (as `NONE`) otherwise, `BY_TYPE_AND_DATE` nests
the date folders inside the category folder; a Video modified 2024-03-20
under `/out` resolves to `/out/Videos/2024/03/20`. -/
theorem get_organized_path_spec :
    (∀ (fi : FileInfo) (base : List String),
      getOrganizedPath fi base OrganizationStrategy.NONE = base) ∧
    (∀ (fi : FileInfo) (base : List String),
      getOrganizedPath fi base OrganizationStrategy.BY_TYPE =
        base ++ [typeDirName fi.type]) ∧
    (∀ (fi : FileInfo) (base : List String) (d : DateM), fi.modified_date = some d →
      getOrganizedPath fi base OrganizationStrategy.BY_DATE =
        base ++ [Nat.repr d.year, pad2 d.month, pad2 d.day]) ∧
    (∀ (fi : FileInfo) (base : List String), fi.modified_date = none →
      getOrganizedPath fi base OrganizationStrategy.BY_DATE = base) ∧
    (∀ (fi : FileInfo) (base : List String) (d : DateM), fi.modified_date = some d →
      getOrganizedPath fi base OrganizationStrategy.BY_TYPE_AND_DATE =
        base ++ [typeDirName fi.type] ++ [Nat.repr d.year, pad2 d.month, pad2 d.day]) ∧
    (getOrganizedPath videoFi ["/out"] OrganizationStrategy.BY_TYPE_AND_DATE =
      ["/out", "Videos", "2024", "03", "20"] ∧
     String.intercalate "/"
        (getOrganizedPath videoFi ["/out"] OrganizationStrategy.BY_TYPE_AND_DATE) =
      "/out/Videos/2024/03/20") := by
  refine ⟨fun fi base => rfl, fun fi base => rfl, ?_, ?_, ?_, by decide, ?_⟩
  · intro fi base d hd
    simp [getOrganizedPath, hd]
  · intro fi base hd
    simp [getOrganizedPath, hd]
  · intro fi base d hd
    simp [getOrganizedPath, hd]
  · rfl

/-- Witness for C7: the dated clauses at the concrete video file. -/
theorem get_organized_path_spec_witness :
    getOrganizedPath videoFi ["/out"] OrganizationStrategy.BY_TYPE_AND_DATE =
      ["/out"] ++ [typeDirName videoFi.type] ++
        [Nat.repr (2024 : Nat), pad2 3, pad2 20] :=
  get_organized_path_spec.2.2.2.2.1 videoFi ["/out"] ⟨2024, 3, 20⟩ rfl

/-! ### Decimal rendering of counters

`_handle_duplicate` renders its counter with an f-string, i.e. `Nat.repr`.
The lemmas below recover the digits of `Nat.repr` and show it injective,
which is what makes successive rename candidates pairwise distinct. -/

/-- The digit list of `n` in base 10, most significant first. -/
def digitsRep (n : Nat) : List Char :=
  if n / 10 = 0 then [Nat.digitChar (n % 10)]
  else digitsRep (n / 10) ++ [Nat.digitChar (n % 10)]
decreasing_by
  exact Nat.div_lt_self (Nat.pos_of_ne_zero fun h0 => by simp [h0] at *) (by omega)

theorem toDigitsCore_eq_digitsRep :
    ∀ (fuel n : Nat) (ds : List Char), n < fuel →
      Nat.toDigitsCore 10 fuel n ds = digitsRep n ++ ds := by
  intro fuel
  induction fuel with
  | zero => intro n ds h; omega
  | succ f ih =>
    intro n ds h
    rw [Nat.toDigitsCore]
    by_cases h0 : n / 10 = 0
    · rw [digitsRep]
      simp [h0]
    · have hn : 0 < n := by
        rcases Nat.eq_zero_or_pos n with h1 | h1
        · exact absurd (by simp [h1]) h0
        · exact h1
      have hlt : n / 10 < f := Nat.lt_of_lt_of_le
        (Nat.div_lt_self hn (by omega)) (Nat.le_of_lt_succ h)
      rw [digitsRep]
      simp only [h0, if_false, if_neg h0]
      rw [ih (n / 10) _ hlt, List.append_assoc]
      rfl

theorem nat_repr_eq_digitsRep (n : Nat) : Nat.repr n = String.mk (digitsRep n) := by
  show (Nat.toDigits 10 n).asString = _
  rw [Nat.toDigits, toDigitsCore_eq_digitsRep (n + 1) n [] (Nat.lt_succ_self n),
    List.append_nil]
  rfl

/-- The numeric value read back from a digit character. -/
def digitVal (c : Char) : Nat := c.toNat - 48

/-- The numeric value read back from a most-significant-first digit list. -/
def digitsVal (cs : List Char) : Nat := cs.foldl (fun a c => 10 * a + digitVal c) 0

theorem digitsVal_append_singleton (cs : List Char) (c : Char) :
    digitsVal (cs ++ [c]) = 10 * digitsVal cs + digitVal c := by
  simp [digitsVal, List.foldl_append]

theorem digitVal_digitChar (d : Nat) (h : d < 10) :
    digitVal (Nat.digitChar d) = d := by
  interval_cases d <;> decide

theorem digitsVal_digitsRep (n : Nat) : digitsVal (digitsRep n) = n := by
  induction n using Nat.strong_induction_on with
  | _ n ih =>
    rw [digitsRep]
    by_cases h0 : n / 10 = 0
    · rw [if_pos h0]
      have h1 : digitsVal [Nat.digitChar (n % 10)] = digitVal (Nat.digitChar (n % 10)) := by
        simp [digitsVal]
      rw [h1, digitVal_digitChar (n % 10) (Nat.mod_lt _ (by omega))]
      omega
    · rw [if_neg h0]
      have hn : 0 < n := by
        rcases Nat.eq_zero_or_pos n with h1 | h1
        · exact absurd (by simp [h1]) h0
        · exact h1
      rw [digitsVal_append_singleton,
        ih (n / 10) (Nat.div_lt_self hn (by omega)),
        digitVal_digitChar (n % 10) (Nat.mod_lt _ (by omega))]
      omega

theorem nat_repr_injective : Function.Injective Nat.repr := by
  intro m n h
  rw [nat_repr_eq_digitsRep, nat_repr_eq_digitsRep] at h
  have hdata : digitsRep m = digitsRep n := congrArg String.data h
  calc m = digitsVal (digitsRep m) := (digitsVal_digitsRep m).symm
    _ = digitsVal (digitsRep n) := by rw [hdata]
    _ = n := digitsVal_digitsRep n

/-! ### Duplicate resolution (`TransferManager._handle_duplicate`)

The destination is a parent directory plus a file name; `dest_path.exists()`
and `new_path.exists()` probe the fixed parent directory, so the filesystem
state is embedded as the (finite) list `existing` of names present there.
The Python `while True` loop increments a counter until the candidate name
is free; it is embedded with fuel `existing.length + 1`, which
`renameLoop_finds` proves sufficient (the candidates are pairwise distinct,
so a list of `n` names cannot occupy all of the first `n + 1`). -/

/-- A `pathlib.Path` as parent components plus final name. -/
structure PPath where
  dir : List String
  name : String
deriving DecidableEq

/-- Failures of `_handle_duplicate` (`TransferError`): the `skip` strategy
on an existing destination; `renameExhausted` marks the fuel-based
embedding's unreachable branch. -/
inductive TransferErr where
  | alreadyExists
  | renameExhausted
deriving DecidableEq

/-- Index of the last `'.'` in a name, as in `pathlib` (`name.rfind('.')`). -/
def lastDotIdx (name : String) : Option Nat :=
  match name.data.reverse.findIdx? (fun c => c == '.') with
  | none => none
  | some r => some (name.data.length - 1 - r)

/-- `pathlib.PurePath.stem` of a file name: the part before the last dot,
when `0 < i < len(name) - 1`, else the whole name. -/
def nameStem (name : String) : String :=
  match lastDotIdx name with
  | some i =>
    if 0 < i ∧ i < name.data.length - 1 then String.mk (name.data.take i) else name
  | none => name

/-- `pathlib.PurePath.suffix` of a file name: the part from the last dot,
when `0 < i < len(name) - 1`, else empty. -/
def nameSuffix (name : String) : String :=
  match lastDotIdx name with
  | some i =>
    if 0 < i ∧ i < name.data.length - 1 then String.mk (name.data.drop i) else ""
  | none => ""

/-- The rename candidate `f"{stem}_{counter}{suffix}"`. -/
def candidateName (stem sfx : String) (counter : Nat) : String :=
  stem ++ "_" ++ Nat.repr counter ++ sfx

/-- The `while True` rename loop of `_handle_duplicate`, fuelled. -/
def renameLoop (existing : List String) (stem sfx : String) :
    Nat → Nat → Option String
  | 0, _ => none
  | fuel + 1, counter =>
    if existing.contains (candidateName stem sfx counter) then
      renameLoop existing stem sfx fuel (counter + 1)
    else some (candidateName stem sfx counter)

/-- `TransferManager._handle_duplicate`. -/
def handleDuplicate (existing : List String) (dest_path : PPath)
    (strategy : String) : Except TransferErr PPath :=
  if !(existing.contains dest_path.name) || strategy == "overwrite" then
    .ok dest_path
  else if strategy == "skip" then .error .alreadyExists
  else
    match renameLoop existing (nameStem dest_path.name) (nameSuffix dest_path.name)
        (existing.length + 1) 1 with
    | some new_name => .ok { dest_path with name := new_name }
    | none => .error .renameExhausted

theorem candidateName_inj (stem sfx : String) :
    ∀ {c c' : Nat}, candidateName stem sfx c = candidateName stem sfx c' → c = c' := by
  intro c c' h
  unfold candidateName at h
  have h2 : stem.data ++ ("_".data ++ ((Nat.repr c).data ++ sfx.data)) =
      stem.data ++ ("_".data ++ ((Nat.repr c').data ++ sfx.data)) := by
    simpa [List.append_assoc] using congrArg String.data h
  have h3 := List.append_cancel_left h2
  have h4 := List.append_cancel_left h3
  have h5 := List.append_cancel_right h4
  exact nat_repr_injective (by
    show Nat.repr c = Nat.repr c'
    cases hc : Nat.repr c with
    | mk d =>
      cases hc' : Nat.repr c' with
      | mk d' =>
        rw [hc, hc'] at h5
        simp only at h5
        rw [h5])

theorem renameLoop_finds (existing : List String) (stem sfx : String) :
    ∃ k, k < existing.length + 1 ∧
      existing.contains (candidateName stem sfx (1 + k)) = false := by
  by_contra hall
  push_neg at hall
  have hmem : ∀ k < existing.length + 1, candidateName stem sfx (1 + k) ∈ existing := by
    intro k hk
    have hne := hall k hk
    have hb : existing.contains (candidateName stem sfx (1 + k)) = true := by
      cases hcb : existing.contains (candidateName stem sfx (1 + k))
      · exact absurd hcb hne
      · rfl
    exact List.mem_of_elem_eq_true hb
  set L := (List.range (existing.length + 1)).map
    (fun k => candidateName stem sfx (1 + k)) with hL
  have hnodup : L.Nodup := by
    refine List.Nodup.map ?_ (List.nodup_range _)
    intro a b hab
    have := candidateName_inj stem sfx hab
    omega
  have hsub : ∀ x ∈ L, x ∈ existing := by
    intro x hx
    rw [hL, List.mem_map] at hx
    obtain ⟨k, hk, rfl⟩ := hx
    exact hmem k (List.mem_range.mp hk)
  have hcard1 : L.toFinset.card = existing.length + 1 := by
    rw [List.toFinset_card_of_nodup hnodup, hL, List.length_map, List.length_range]
  have hsubF : L.toFinset ⊆ existing.toFinset := by
    intro x hx
    rw [List.mem_toFinset] at hx ⊢
    exact hsub x hx
  have hle := Finset.card_le_card hsubF
  have h2 : existing.toFinset.card ≤ existing.length := List.toFinset_card_le existing
  omega

theorem renameLoop_spec (existing : List String) (stem sfx : String) :
    ∀ (fuel c : Nat),
      (∃ k, k < fuel ∧ existing.contains (candidateName stem sfx (c + k)) = false) →
      ∃ j, renameLoop existing stem sfx fuel c
          = some (candidateName stem sfx (c + j)) ∧
        existing.contains (candidateName stem sfx (c + j)) = false ∧
        ∀ i, i < j → existing.contains (candidateName stem sfx (c + i)) = true := by
  intro fuel
  induction fuel with
  | zero =>
    rintro c ⟨k, hk, -⟩
    omega
  | succ f ih =>
    rintro c ⟨k, hk, hfree⟩
    rw [renameLoop]
    cases hcb : existing.contains (candidateName stem sfx c) with
    | false =>
      rw [if_neg (by simp)]
      refine ⟨0, by rw [Nat.add_zero], ?_, ?_⟩
      · rw [Nat.add_zero]; exact hcb
      · intro i hi; omega
    | true =>
      rw [if_pos rfl]
      have hk0 : k ≠ 0 := by
        intro h0
        rw [h0, Nat.add_zero] at hfree
        rw [hfree] at hcb
        exact Bool.false_ne_true hcb
      obtain ⟨k', rfl⟩ : ∃ k', k = k' + 1 := ⟨k - 1, by omega⟩
      obtain ⟨j, hj1, hj2, hj3⟩ := ih (c + 1)
        ⟨k', by omega, by rw [show c + 1 + k' = c + (k' + 1) by omega]; exact hfree⟩
      have hshift : c + 1 + j = c + (j + 1) := by omega
      rw [hshift] at hj1 hj2
      refine ⟨j + 1, hj1, hj2, ?_⟩
      intro i hi
      cases i with
      | zero => simpa using hcb
      | succ i' =>
        rw [show c + (i' + 1) = c + 1 + i' by omega]
        exact hj3 i' (by omega)

theorem renameLoop_total (existing : List String) (stem sfx : String) :
    ∃ j, renameLoop existing stem sfx (existing.length + 1) 1
        = some (candidateName stem sfx (1 + j)) ∧
      existing.contains (candidateName stem sfx (1 + j)) = false ∧
      ∀ i, i < j → existing.contains (candidateName stem sfx (1 + i)) = true :=
  renameLoop_spec existing stem sfx (existing.length + 1) 1
    (renameLoop_finds existing stem sfx)

/-- C6: duplicate resolution is a pure function of the destination and the
set of existing names.  Under `rename`, a non-existing destination is
returned unchanged, and an existing one gets the numeric suffix inserted
before the extension with the least free counter starting from 1 (all
smaller counters collide).  Under `skip` an existing destination yields the
already-exists error (no write is modelled at all); under `overwrite` the
path is returned unchanged. -/
theorem handle_duplicate_spec (existing : List String) (dest_path : PPath) :
    (existing.contains dest_path.name = false →
      handleDuplicate existing dest_path "rename" = .ok dest_path) ∧
    (handleDuplicate existing dest_path "overwrite" = .ok dest_path) ∧
    (existing.contains dest_path.name = true →
      handleDuplicate existing dest_path "skip" = .error .alreadyExists) ∧
    (existing.contains dest_path.name = true →
      ∃ c, 1 ≤ c ∧
        handleDuplicate existing dest_path "rename" =
          .ok { dest_path with
                name := candidateName (nameStem dest_path.name)
                  (nameSuffix dest_path.name) c } ∧
        existing.contains
          (candidateName (nameStem dest_path.name) (nameSuffix dest_path.name) c)
          = false ∧
        ∀ j, 1 ≤ j → j < c →
          existing.contains
            (candidateName (nameStem dest_path.name) (nameSuffix dest_path.name) j)
            = true) := by
  refine ⟨?_, ?_, ?_, ?_⟩
  · intro h
    have hcond : (!(existing.contains dest_path.name) ||
        (("rename" : String) == "overwrite")) = true := by rw [h]; rfl
    unfold handleDuplicate
    rw [if_pos hcond]
  · have hcond : (!(existing.contains dest_path.name) ||
        (("overwrite" : String) == "overwrite")) = true := by
      rw [show (("overwrite" : String) == "overwrite") = true from by decide]
      exact Bool.or_true _
    unfold handleDuplicate
    rw [if_pos hcond]
  · intro h
    have hcond : (!(existing.contains dest_path.name) ||
        (("skip" : String) == "overwrite")) = false := by rw [h]; decide
    unfold handleDuplicate
    rw [if_neg (by rw [hcond]; decide), if_pos (by decide)]
  · intro h
    obtain ⟨j, hj1, hj2, hj3⟩ :=
      renameLoop_total existing (nameStem dest_path.name) (nameSuffix dest_path.name)
    refine ⟨1 + j, by omega, ?_, hj2, ?_⟩
    · simp only [handleDuplicate, h, Bool.not_true, Bool.false_or]
      rw [if_neg (by decide), if_neg (by decide), hj1]
    · intro i h1 h2
      obtain ⟨i', rfl⟩ : ∃ i', i = 1 + i' := ⟨i - 1, by omega⟩
      exact hj3 i' (by omega)

/-- Witness for C6: renaming `test.jpg` against `{test.jpg, test_1.jpg}`. -/
theorem handle_duplicate_spec_witness :
    ∃ c, 1 ≤ c ∧
      handleDuplicate ["test.jpg", "test_1.jpg"] ⟨["photos"], "test.jpg"⟩ "rename" =
        .ok { dir := ["photos"],
              name := candidateName (nameStem "test.jpg") (nameSuffix "test.jpg") c } ∧
      (["test.jpg", "test_1.jpg"] : List String).contains
        (candidateName (nameStem "test.jpg") (nameSuffix "test.jpg") c) = false ∧
      ∀ j, 1 ≤ j → j < c →
        (["test.jpg", "test_1.jpg"] : List String).contains
          (candidateName (nameStem "test.jpg") (nameSuffix "test.jpg") j) = true :=
  (handle_duplicate_spec ["test.jpg", "test_1.jpg"] ⟨["photos"], "test.jpg"⟩).2.2.2
    (by decide)

/-! ### Single-file transfer with verification -/

/-- Failures of the single-file transfer: a duplicate-resolution failure or
a hash mismatch during verification. -/
inductive SingleErr where
  | verificationFailed
  | duplicateErr (e : TransferErr)
deriving DecidableEq

/-- Result record of the single-file transfer.  `written` tells whether
bytes were written to `destination`; `destContent` is the content found
there afterwards (`none` when nothing was written); `sourceDeleted`
whether the source file was removed. -/
structure SingleResult where
  success : Bool
  destination : PPath
  hashVal : Option Nat
  error : Option SingleErr
  written : Bool
  destContent : Option (List Nat)
  sourceDeleted : Bool
deriving DecidableEq

/-- Modelled from the spec: `TransferManager.transfer_file` is absent from
`src/` (only its CLI callers in `amtt/cli/commands.py` and its tests
exist), so the single-file run follows §4.5 of the spec: compute the
destination directory from `organization` (via `_get_organized_path`,
which is in `src/`), resolve the final name against `duplicate_strategy`
(via `_handle_duplicate`, which is in `src/`), stream-copy computing a
running content hash, and if `verify` recompute the hash of the written
file and compare — a mismatch fails with VerificationFailed and the
written file is left in place; `delete_source` applies after success only.
Bytes are `List Nat`; `hash` is the (arbitrary) content hash;
`destAtVerify` is the content found at the destination when re-hashing
(`none` = unchanged, `some` = externally corrupted between write and
verification); `deleteOk` tells whether removing the source succeeds. -/
def transfer_file (hash : List Nat → Nat) (existing : List String)
    (srcContent : List Nat) (destAtVerify : Option (List Nat)) (deleteOk : Bool)
    (file_info : FileInfo) (destination : List String)
    (organization : OrganizationStrategy) (verify : Bool)
    (duplicate_strategy : String) (delete_source : Bool) : SingleResult :=
  let destDir := getOrganizedPath file_info destination organization
  match handleDuplicate existing ⟨destDir, file_info.name⟩ duplicate_strategy with
  | .error e =>
    { success := false, destination := ⟨destDir, file_info.name⟩, hashVal := none,
      error := some (SingleErr.duplicateErr e), written := false,
      destContent := none, sourceDeleted := false }
  | .ok finalPath =>
    let sourceHash := hash srcContent
    if verify then
      let actual := destAtVerify.getD srcContent
      if hash actual ≠ sourceHash then
        { success := false, destination := finalPath, hashVal := none,
          error := some SingleErr.verificationFailed, written := true,
          destContent := some actual, sourceDeleted := false }
      else
        { success := true, destination := finalPath, hashVal := some sourceHash,
          error := none, written := true, destContent := some actual,
          sourceDeleted := delete_source && deleteOk }
    else
      { success := true, destination := finalPath, hashVal := some sourceHash,
        error := none, written := true, destContent := some srcContent,
        sourceDeleted := delete_source && deleteOk }

/-- C4: with `verify = true`, transferring unmodified bytes succeeds and
reports a hash equal to the source hash, while a corruption of the
destination before the comparison (any content with a different hash)
fails with VerificationFailed and leaves the written destination file in
place — not rolled back. -/
theorem transfer_file_verify_spec (hash : List Nat → Nat) (existing : List String)
    (srcContent corrupt : List Nat) (deleteOk : Bool) (file_info : FileInfo)
    (destination : List String) (organization : OrganizationStrategy)
    (duplicate_strategy : String) (delete_source : Bool) (p : PPath)
    (hdup : handleDuplicate existing
      ⟨getOrganizedPath file_info destination organization, file_info.name⟩
      duplicate_strategy = .ok p)
    (hcorrupt : hash corrupt ≠ hash srcContent) :
    transfer_file hash existing srcContent none deleteOk file_info destination
        organization true duplicate_strategy delete_source =
      { success := true, destination := p, hashVal := some (hash srcContent),
        error := none, written := true, destContent := some srcContent,
        sourceDeleted := delete_source && deleteOk } ∧
    transfer_file hash existing srcContent (some corrupt) deleteOk file_info
        destination organization true duplicate_strategy delete_source =
      { success := false, destination := p, hashVal := none,
        error := some SingleErr.verificationFailed, written := true,
        destContent := some corrupt, sourceDeleted := false } := by
  constructor
  · simp [transfer_file, hdup]
  · simp [transfer_file, hdup, hcorrupt]

/-- Witness for C4: summing bytes as the hash, source `[1, 2, 3]`,
corrupted destination `[0]`. -/
theorem transfer_file_verify_spec_witness :
    transfer_file (fun l => l.sum) [] [1, 2, 3] none true videoFi ["/out"]
        OrganizationStrategy.NONE true "rename" true =
      { success := true, destination := ⟨["/out"], "clip.mp4"⟩,
        hashVal := some ((fun (l : List Nat) => l.sum) [1, 2, 3]),
        error := none, written := true, destContent := some [1, 2, 3],
        sourceDeleted := true && true } ∧
    transfer_file (fun l => l.sum) [] [1, 2, 3] (some [0]) true videoFi ["/out"]
        OrganizationStrategy.NONE true "rename" true =
      { success := false, destination := ⟨["/out"], "clip.mp4"⟩,
        hashVal := none, error := some SingleErr.verificationFailed,
        written := true, destContent := some [0], sourceDeleted := false } :=
  transfer_file_verify_spec (fun l => l.sum) [] [1, 2, 3] [0] true videoFi ["/out"]
    OrganizationStrategy.NONE "rename" true ⟨["/out"], "clip.mp4"⟩
    rfl (by decide)

end AMTT
